import Mathlib

/-!
Verification development for the osdd-core recipe materialization engine.

The Go sources are shallowly embedded as pure Lean functions:
* the persistence writer `core/io.go` (`PersistMaterializedResult`,
  `isPathWithinRoot`) over a lexical model of Go's `path/filepath`
  functions for Unix (`Clean`, `Join`, `Rel`, `Dir`, `IsAbs`);
* the MCP merge `core/plugins/shared/ide.go` (`buildMcpJSON` with its
  custom JSON (un)marshalling) over an explicit JSON value model;
* the Claude settings strategy (`buildClaudeSettingsJSON`,
  `formatPermission`, `mergeUniqueStrings`);
* the context generator (`Context.Materialize`, `materializeEntry`,
  `fetchContent`, `fetchCombined`, `fetchCombinedItem`) and the user-input
  renderer (`renderUserInput`), with the external collaborators
  (command execution, GitHub fetch, local file read, git clone)
  abstracted as function-valued environments;
* the prefetch processor (`Processor.Process`).

Filesystem effects are modelled as an emitted list of operations
(`mkdirAll`, `writeFile`); OS-level failures of those operations are not
modelled (the claims under study do not depend on them).  JSON documents
are modelled as values (`Json`); "the existing file content parses /
does not parse" is modelled by the `ExistingFile` type.  Two documented
idealizations: Go's `json.Marshal` emits map keys sorted, while this
model keeps a deterministic insertion order (the claims concern key
membership and values, which are order independent), and Go's
case-insensitive JSON field-name fallback is not modelled (keys are
matched exactly).
-/

namespace Osdd

/-- JSON value model: objects as ordered association lists.  Numbers are
modelled as integers; the merge logic under study treats non-string values
opaquely, so this loses nothing relevant. -/
inductive Json where
  | null : Json
  | bool (b : Bool) : Json
  | num (n : Int) : Json
  | str (s : String) : Json
  | arr (elems : List Json) : Json
  | obj (fields : List (String × Json)) : Json

/-- First-match association lookup (Go map read). -/
def lookupAssoc {α : Type} (l : List (String × α)) (k : String) : Option α :=
  match l with
  | [] => none
  | p :: rest => if p.1 = k then some p.2 else lookupAssoc rest k

/-- Replace-or-append association insert (Go map write `m[k] = v`). -/
def insertAssoc {α : Type} (l : List (String × α)) (k : String) (v : α) :
    List (String × α) :=
  match l with
  | [] => [(k, v)]
  | p :: rest => if p.1 = k then (k, v) :: rest else p :: insertAssoc rest k v

/-- Decode a JSON object's field list into a map, later duplicates winning,
as Go's `json.Unmarshal` into `map[string]...` does. -/
def normFields {α : Type} (l : List (String × α)) : List (String × α) :=
  l.foldl (fun acc p => insertAssoc acc p.1 p.2) []

/-! ## String helpers

Structural (kernel-computable) counterparts of the Go string functions the
embedded code uses: `strings.TrimSpace`, `strings.Fields`, splitting and
joining on the path separator, decimal rendering of loop indices. -/

/-- Split a character list at every occurrence of `sep`
(`strings.Split` semantics: the empty input yields one empty piece). -/
def chSplit (sep : Char) : List Char → List (List Char)
  | [] => [[]]
  | c :: rest =>
    let r := chSplit sep rest
    if c = sep then [] :: r
    else
      match r with
      | h :: t => (c :: h) :: t
      | [] => [[c]]

/-- Split a string on the path separator. -/
def splitSlash (s : String) : List String := (chSplit '/' s.data).map String.mk

/-- Join pieces with a single separator character. -/
def chIntercalate (sep : Char) : List (List Char) → List Char
  | [] => []
  | [x] => x
  | x :: xs => x ++ sep :: chIntercalate sep xs

/-- Join path elements with `/`. -/
def joinSlash (l : List String) : String :=
  String.mk (chIntercalate '/' (l.map String.data))

/-- Go `strings.TrimSpace` (over the whitespace class of `Char.isWhitespace`;
the inputs of interest use plain spaces and tabs). -/
def trimStr (s : String) : String :=
  String.mk (((s.data.dropWhile Char.isWhitespace).reverse.dropWhile
    Char.isWhitespace).reverse)

/-- Go `strings.Fields`: split on whitespace runs, dropping empty pieces. -/
def goFields (s : String) : List String :=
  ((s.data.splitOnP Char.isWhitespace).map String.mk).filter (· ≠ "")

/-- Decimal digits of `n`, fuelled to stay structurally recursive. -/
def natToStrAux : Nat → Nat → List Char
  | 0, _ => []
  | fuel + 1, n =>
    if n < 10 then [Char.ofNat (48 + n)]
    else natToStrAux fuel (n / 10) ++ [Char.ofNat (48 + n % 10)]

/-- Decimal rendering of a natural number (`fmt`'s `%d` for loop indices). -/
def natToStr (n : Nat) : String := String.mk (natToStrAux (n + 1) n)

/-! ## Lexical path model (Go `path/filepath`, Unix rules) -/

/-- Go `filepath.IsAbs` on Unix. -/
def isAbsPath (s : String) : Bool :=
  match s.data with
  | '/' :: _ => true
  | _ => false

/-- One step of the `Clean` element stack: drop empty and `.` elements,
resolve `..` against the stack (dropping it at an absolute root, keeping it
at the head of a relative path). -/
def cleanPush (abs : Bool) (stack : List String) (e : String) : List String :=
  if e = "" || e = "." then stack
  else if e = ".." then
    match stack with
    | [] => if abs then [] else [".."]
    | top :: rest => if top = ".." then e :: stack else rest
  else e :: stack

/-- Go `filepath.Clean` on Unix: lexical `.`/`..`/slash normalization. -/
def clean (s : String) : String :=
  if s = "" then "."
  else
    let abs := isAbsPath s
    let parts := ((splitSlash s).foldl (cleanPush abs) []).reverse
    if abs then "/" ++ joinSlash parts
    else if parts = [] then "." else joinSlash parts

/-- Go `filepath.Join` for two elements: non-empty elements joined with a
separator, then cleaned; all-empty input gives the empty string. -/
def joinPath (a b : String) : String :=
  if a = "" && b = "" then ""
  else if a = "" then clean b
  else if b = "" then clean a
  else clean (a ++ "/" ++ b)

/-- Index of the last path separator, if any. -/
def lastSepIdx : List Char → Nat → Option Nat
  | [], _ => none
  | c :: rest, i =>
    match lastSepIdx rest (i + 1) with
    | some j => some j
    | none => if c = '/' then some i else none

/-- Go `filepath.Dir`: everything up to the final separator, cleaned;
`.` when there is no separator. -/
def dirPath (s : String) : String :=
  match lastSepIdx s.data 0 with
  | none => clean ""
  | some i => clean (String.mk (s.data.take (i + 1)))

/-- Elements of a cleaned path, ignoring the leading separator of an
absolute path; `.` and `/` have no elements. -/
def pathElems (s : String) : List String :=
  let s2 := if isAbsPath s then String.mk (s.data.drop 1) else s
  if s2 = "" || s2 = "." then [] else splitSlash s2

/-- Strip the longest shared leading run of elements from both lists
(the element-wise scan in Go's `filepath.Rel`). -/
def dropShared : List String → List String → List String × List String
  | a :: as, b :: bs =>
    if a = b then dropShared as bs else (a :: as, b :: bs)
  | as, bs => (as, bs)

/-- Go `filepath.Rel` on Unix.  `none` models the error return: mixed
absolute/relative inputs, or a remaining `..` base element. -/
def relPath (base targ : String) : Option String :=
  let b := clean base
  let t := clean targ
  if b = t then some "."
  else if isAbsPath b != isAbsPath t then none
  else
    let p := dropShared (pathElems b) (pathElems t)
    match p.1 with
    | ".." :: _ => none
    | br => some (joinSlash (List.replicate br.length ".." ++ p.2))

/-- `isPathWithinRoot` from `core/io.go`: `filepath.Rel`-based traversal
check. -/
def isPathWithinRoot (root target : String) : Bool :=
  match relPath root target with
  | none => false
  | some rel =>
    if rel = "." then true
    else if rel = ".." then false
    else
      match rel.data with
      | '.' :: '.' :: '/' :: _ => false
      | _ => true

/-! ## Persistence writer (`core/io.go`) -/

/-- One `MaterializedResult` entry.  `blank` covers a nil entry pointer and
an entry carrying neither a file nor a directory (all are skipped). -/
inductive Entry where
  | file (path content : String) : Entry
  | directory (path : String) : Entry
  | blank : Entry
deriving DecidableEq

/-- A filesystem mutation issued by the writer. -/
inductive FsOp where
  | mkdirAll (path : String) : FsOp
  | writeFile (path content : String) : FsOp
deriving DecidableEq

/-- `strings.TrimPrefix(rel, "/")` as applied after the `IsAbs` test. -/
def stripLeadSep (s : String) : String :=
  if isAbsPath s then String.mk (s.data.drop 1) else s

/-- The loop body of `PersistMaterializedResult` for one entry: the
operations issued and the error (without the `entry %d:` wrapper added by
the loop).  OS failures of `MkdirAll`/`WriteFile` are not modelled. -/
def processEntry (root : String) : Entry → List FsOp × Option String
  | .blank => ([], none)
  | .directory d =>
    let dp := trimStr d
    if dp = "" then ([], none)
    else
      let full := clean (joinPath root (stripLeadSep (clean dp)))
      if isPathWithinRoot root full then ([.mkdirAll full], none)
      else ([], some ("directory path escapes root: " ++ dp))
  | .file p c =>
    let pt := trimStr p
    if pt = "" then ([], some "file path cannot be empty")
    else
      let full := clean (joinPath root (stripLeadSep (clean pt)))
      if isPathWithinRoot root full then
        ([.mkdirAll (dirPath full), .writeFile full c], none)
      else ([], some ("path escapes root: " ++ pt))

/-- The entry loop: fail-fast, indices in the error messages. -/
def persistEntries (root : String) : Nat → List Entry → List FsOp × Option String
  | _, [] => ([], none)
  | i, e :: rest =>
    let r := processEntry root e
    match r.2 with
    | some m => (r.1, some ("entry " ++ natToStr i ++ ": " ++ m))
    | none =>
      let r2 := persistEntries root (i + 1) rest
      (r.1 ++ r2.1, r2.2)

/-- Result of a persistence run: the filesystem operations issued before
returning, and the error if any. -/
structure PersistOut where
  ops : List FsOp
  err : Option String
deriving DecidableEq

/-- `PersistMaterializedResult` from `core/io.go`.  `none` models a nil
`*osdd.MaterializedResult`. -/
def PersistMaterializedResult (root : String) (result : Option (List Entry)) :
    PersistOut :=
  if trimStr root = "" then ⟨[], some "root path cannot be empty"⟩
  else
    match result with
    | none => ⟨[], some "materialized result cannot be nil"⟩
    | some entries =>
      let r := persistEntries (clean root) 0 entries
      ⟨r.1, r.2⟩

/-- An entry whose declared path, joined to (the cleaned) root and
normalized, fails the containment check — the claim's "resolves outside
root", computed exactly as the code computes it. -/
def entryEscapes (root : String) : Entry → Bool
  | .blank => false
  | .directory d =>
    let dp := trimStr d
    dp ≠ "" && !(isPathWithinRoot root (clean (joinPath root (stripLeadSep (clean dp)))))
  | .file p _ =>
    let pt := trimStr p
    pt ≠ "" && !(isPathWithinRoot root (clean (joinPath root (stripLeadSep (clean pt)))))

/-- The error component of one entry's processing. -/
def entryErr (root : String) (e : Entry) : Option String := (processEntry root e).2

/-- Safety of one issued operation relative to root: file writes and
directory-entry creations land within root; parent-directory creations are
at `Dir` of a within-root target. -/
def opSafe (root : String) : FsOp → Prop
  | .writeFile p _ => isPathWithinRoot root p = true
  | .mkdirAll p =>
    isPathWithinRoot root p = true ∨
      ∃ q, isPathWithinRoot root q = true ∧ p = dirPath q

/-! ## MCP server merge (`core/plugins/shared/ide.go`) -/

/-- The decoded `mcpServerConfig` struct: recognized fields plus the
`Extra` map of unknown fields preserved by the custom unmarshaller.
`args = none` / `env = none` model nil slices/maps (omitted on marshal). -/
structure McpSrvCfg where
  type : String
  command : String
  args : Option (List String)
  env : Option (List (String × String))
  url : String
  extra : List (String × Json)

/-- Decode a JSON value into a Go `string` destination: strings decode,
`null` leaves the zero value, anything else is a type error. -/
def jStr? : Json → Option String
  | .null => some ""
  | .str s => some s
  | _ => none

/-- Decode one recognized string field from the raw map (absent keeps the
zero value). -/
def getStrField (raw : List (String × Json)) (k : String) : Option String :=
  match lookupAssoc raw k with
  | none => some ""
  | some v => jStr? v

/-- Decode the `args` field (`[]string`): absent or `null` is a nil slice. -/
def getArgsField (raw : List (String × Json)) : Option (Option (List String)) :=
  match lookupAssoc raw "args" with
  | none => some none
  | some .null => some none
  | some (.arr xs) => (xs.mapM jStr?).map some
  | some _ => none

/-- Decode the `env` field (`map[string]string`): absent or `null` is a
nil map; later duplicate keys win. -/
def getEnvField (raw : List (String × Json)) :
    Option (Option (List (String × String))) :=
  match lookupAssoc raw "env" with
  | none => some none
  | some .null => some none
  | some (.obj fs) =>
    ((normFields fs).mapM (fun p => (jStr? p.2).map (fun s => (p.1, s)))).map some
  | some _ => none

/-- The five JSON keys recognized by `mcpServerConfig`. -/
def mcpCfgKeys : List String := ["type", "command", "args", "env", "url"]

/-- `mcpServerConfig.UnmarshalJSON`: decode the recognized fields, stash
everything else in `extra`.  A JSON `null` decodes to the zero struct
(Go passes `null` through to the unmarshaller, whose two inner
`json.Unmarshal` calls are then no-ops). -/
def unmarshalServer : Json → Option McpSrvCfg
  | .null => some ⟨"", "", none, none, "", []⟩
  | .obj fs =>
    let raw := normFields fs
    match getStrField raw "type", getStrField raw "command",
        getArgsField raw, getEnvField raw, getStrField raw "url" with
    | some t, some c, some a, some e, some u =>
      some ⟨t, c, a, e, u, raw.filter (fun p => ¬ p.1 ∈ mcpCfgKeys)⟩
    | _, _, _, _, _ => none
  | _ => none

/-- `mcpServerConfig.MarshalJSON`: emit non-zero recognized fields, then
the preserved unknown fields.  (Go emits map keys sorted; this model keeps
a fixed field order — the claims only concern key membership and values.) -/
def marshalServer (c : McpSrvCfg) : Json :=
  .obj ((if c.type ≠ "" then [("type", Json.str c.type)] else []) ++
    (if c.command ≠ "" then [("command", Json.str c.command)] else []) ++
    (match c.args with
     | some l => [("args", Json.arr (l.map Json.str))]
     | none => []) ++
    (match c.env with
     | some e => [("env", Json.obj (e.map (fun p => (p.1, Json.str p.2))))]
     | none => []) ++
    (if c.url ≠ "" then [("url", Json.str c.url)] else []) ++
    c.extra)

/-- The decoded `mcpJson` document: the `mcpServers` map (possibly nil)
plus preserved unknown top-level keys. -/
structure McpJsonDoc where
  servers : Option (List (String × McpSrvCfg))
  extra : List (String × Json)

/-- `mcpJson.UnmarshalJSON`: decode the `mcpServers` key into the server
map, keep every other top-level key in `extra`. -/
def unmarshalMcpJson : Json → Option McpJsonDoc
  | .null => some ⟨none, []⟩
  | .obj fs =>
    let raw := normFields fs
    let srvs :=
      match lookupAssoc raw "mcpServers" with
      | none => some none
      | some .null => some none
      | some (.obj sfs) =>
        ((normFields sfs).mapM
          (fun p => (unmarshalServer p.2).map (fun c => (p.1, c)))).map some
      | some _ => none
    match srvs with
    | none => none
    | some s => some ⟨s, raw.filter (fun p => p.1 ≠ "mcpServers")⟩
  | _ => none

/-- Serialize the server map: a nil map marshals as JSON `null`. -/
def marshalServers : Option (List (String × McpSrvCfg)) → Json
  | none => .null
  | some l => .obj (l.map (fun p => (p.1, marshalServer p.2)))

/-- `mcpJson.MarshalJSON`: the `mcpServers` key plus preserved extras. -/
def marshalMcpJson (d : McpJsonDoc) : Json :=
  .obj (("mcpServers", marshalServers d.servers) :: d.extra)

/-- A recipe `McpServer` declaration (`Http` / `Stdio` oneof). -/
inductive McpServer where
  | http (url : String) : McpServer
  | stdio (command : String) (args : List String) : McpServer
  | unset : McpServer

/-- The recipe `Mcp` message: the server map as a name-keyed list (Go map
keys are unique; iteration order is irrelevant to the stated lookups). -/
structure Mcp where
  servers : List (String × McpServer)

/-- The `switch s.WhichType()` body of `buildMcpJSON`: build the config
written for a declared server, or `none` when the declaration is skipped
(unset oneof, or a config left without type/url/command). -/
def mcpServerToConfig : McpServer → Option McpSrvCfg
  | .unset => none
  | .http url => some ⟨"http", "", none, none, url, []⟩
  | .stdio cmd args =>
    let p : String × Option (List String) :=
      if cmd = "" then ("", none)
      else if args ≠ [] then (cmd, some args)
      else
        match goFields cmd with
        | [] => ("", none)
        | [x] => (x, none)
        | x :: rest => (x, some rest)
    some ⟨"stdio", p.1, p.2, some [], "", []⟩

/-- The declared servers that `buildMcpJSON` actually writes, with the
configs it writes for them. -/
def keptServers (mcp : Mcp) : List (String × McpSrvCfg) :=
  mcp.servers.filterMap (fun p => (mcpServerToConfig p.2).map (fun c => (p.1, c)))

/-- The parse outcome of a pre-existing on-disk JSON file: no file (or
empty content), non-empty content that fails to parse, or content parsing
to a JSON value. -/
inductive ExistingFile where
  | absent : ExistingFile
  | unparsable : ExistingFile
  | parsed (j : Json) : ExistingFile

/-- Insert one declared server (update-or-insert by name). -/
def applyServer (acc : McpJsonDoc) (name : String) (s : McpServer) : McpJsonDoc :=
  match mcpServerToConfig s with
  | none => acc
  | some srv => { acc with servers := some (insertAssoc (acc.servers.getD []) name srv) }

/-- `buildMcpJSON` from `core/plugins/shared/ide.go`: parse the existing
content (a parse failure is a hard error), merge the declared servers in
by name, re-serialize. -/
def buildMcpJSON (mcp : Option Mcp) (existing : ExistingFile) : Except String Json :=
  match mcp with
  | none => .error "mcp cannot be nil"
  | some mcp =>
    let parsed : Option McpJsonDoc :=
      match existing with
      | .absent => some ⟨none, []⟩
      | .unparsable => none
      | .parsed j => unmarshalMcpJson j
    match parsed with
    | none => .error "failed to parse existing mcp json"
    | some cm =>
      .ok (marshalMcpJson (mcp.servers.foldl (fun acc p => applyServer acc p.1 p.2) cm))

/-! ## Claude settings strategy (the `claude` plugin) -/

/-- A recipe `OperationPermission` (oneof of Bash/Read/Write patterns and
the Network flag). -/
inductive OperationPermission where
  | bash (pattern : String) : OperationPermission
  | read (pattern : String) : OperationPermission
  | write (pattern : String) : OperationPermission
  | network (enabled : Bool) : OperationPermission
  | unset : OperationPermission
deriving DecidableEq

/-- `p.HasType()`: whether the oneof is populated. -/
def permHasType : OperationPermission → Bool
  | .unset => false
  | _ => true

/-- `formatPermission`: Bash/Read/Write render as `Kind(pattern)`; every
other populated case (Network included) falls through to the default and
renders as the empty string. -/
def formatPermission : OperationPermission → String
  | .bash p => "Bash(" ++ p ++ ")"
  | .read p => "Read(" ++ p ++ ")"
  | .write p => "Write(" ++ p ++ ")"
  | _ => ""

/-- The recipe `Permissions` message. -/
structure Permissions where
  allow : List OperationPermission
  deny : List OperationPermission

/-- The `claudeSettings` struct (the fields the strategy reads and writes;
unknown keys of the existing file are dropped by Go's struct decoding). -/
structure ClaudeSettings where
  allow : List String
  deny : List String
  ask : List String
  defaultMode : String
  enabledMcpjsonServers : List String
  enableAllProjectMcpServers : Bool
deriving DecidableEq

/-- The zero `claudeSettings` value (with nil slices already normalized to
empty, as the strategy does immediately after decoding). -/
def claudeSettingsZero : ClaudeSettings := ⟨[], [], [], "", [], false⟩

/-- Decode a `[]string` destination; nil and empty decode alike here
because the strategy immediately replaces nil slices by empty ones. -/
def decodeStrList : Json → Option (List String)
  | .null => some []
  | .arr xs => xs.mapM jStr?
  | _ => none

/-- Go struct decoding of `claudeSettings` (exact-name matching; unknown
keys ignored; a type mismatch anywhere is a decode error). -/
def decodeClaudeSettings : Json → Option ClaudeSettings
  | .null => some claudeSettingsZero
  | .obj fs =>
    let raw := normFields fs
    let perms :=
      match lookupAssoc raw "permissions" with
      | none => some ([], [], [], "")
      | some .null => some ([], [], [], "")
      | some (.obj pfs) =>
        let praw := normFields pfs
        let get := fun (k : String) =>
          match lookupAssoc praw k with
          | none => some []
          | some v => decodeStrList v
        match get "allow", get "deny", get "ask",
            getStrField praw "defaultMode" with
        | some al, some de, some ask, some dm => some (al, de, ask, dm)
        | _, _, _, _ => none
      | some _ => none
    let ems :=
      match lookupAssoc raw "enabledMcpjsonServers" with
      | none => some []
      | some v => decodeStrList v
    let eap :=
      match lookupAssoc raw "enableAllProjectMcpServers" with
      | none => some false
      | some .null => some false
      | some (.bool b) => some b
      | some _ => none
    match perms, ems, eap with
    | some p, some e, some a => some ⟨p.1, p.2.1, p.2.2.1, p.2.2.2, e, a⟩
    | _, _, _ => none
  | _ => none

/-- `mergeUniqueStrings`: existing items first, then new ones, first
occurrence wins, duplicates dropped. -/
def mergeUniqueStrings (existing new : List String) : List String :=
  (existing ++ new).foldl (fun acc s => if s ∈ acc then acc else acc ++ [s]) []

/-- `buildClaudeSettingsJSON` from the `claude` plugin.  The function is
total: the only error return in the Go code is a `json.MarshalIndent`
failure, which cannot occur for this struct, and — decisively for claim
C3 — a pre-existing settings file that fails to parse is silently replaced
by the zero value (`s = claudeSettings{}`), not reported. -/
def buildClaudeSettingsJSON (perms : Option Permissions)
    (mcpServerNames commandNames : List String) (existing : ExistingFile) :
    ClaudeSettings :=
  let s0 : ClaudeSettings :=
    match existing with
    | .absent => claudeSettingsZero
    | .unparsable => claudeSettingsZero
    | .parsed j => (decodeClaudeSettings j).getD claudeSettingsZero
  let newAllow :=
    ((match perms with
      | none => []
      | some p => p.allow).filter permHasType).map formatPermission
  let newDeny :=
    ((match perms with
      | none => []
      | some p => p.deny).filter permHasType).map formatPermission
  let mcpAllow := mcpServerNames.map (fun n => "mcp__" ++ n)
  let cmdAllow :=
    (commandNames.filter (· ≠ "")).map (fun n => "SlashCommand(/" ++ n ++ ")")
  { allow := mergeUniqueStrings s0.allow (newAllow ++ mcpAllow ++ cmdAllow)
    deny := mergeUniqueStrings s0.deny newDeny
    ask := s0.ask
    defaultMode := "acceptEdits"
    enabledMcpjsonServers := mergeUniqueStrings s0.enabledMcpjsonServers mcpServerNames
    enableAllProjectMcpServers := true }

/-! ## User input renderer (`core/generators/user_input.go`) -/

/-- One declared user-input parameter. -/
structure UserParam where
  name : String
  description : String
  optional : Bool
deriving DecidableEq

/-- One rendered section of the fixed user-input template (name,
description, value). -/
def renderSection (n d v : String) : String :=
  "## " ++ n ++ "\n\n**Description**: " ++ d ++ "\n\n**Value**: " ++ v ++ "\n\n"

/-- The `range` body of the template: a horizontal rule after every
section except the last. -/
def renderSections : List (String × String × String) → String
  | [] => ""
  | [(n, d, v)] => renderSection n d v
  | (n, d, v) :: rest => renderSection n d v ++ "---\n\n" ++ renderSections rest

/-- The full rendered document (`userInputTemplate` executed on the view
models; template parse/execute cannot fail for this constant template). -/
def renderDoc (vm : List (String × String × String)) : String :=
  "# User Input\n\n" ++ renderSections vm

/-- The run-scoped `GenerationContext` fields the generators read. -/
structure GenCtx where
  prefetched : List (String × String)
  userInput : List (String × String)
  ide : String
  workspacePath : String

/-- One pass of `renderUserInput`'s loop, accumulating missing required
names and view models.  Unnamed parameters are skipped; an absent value
renders as the empty string. -/
def userInputStep (vals : List (String × String))
    (acc : List String × List (String × String × String)) (p : UserParam) :
    List String × List (String × String × String) :=
  if p.name = "" then acc
  else
    match lookupAssoc vals p.name with
    | some v => (acc.1, acc.2 ++ [(p.name, p.description, v)])
    | none =>
      ((if p.optional then acc.1 else acc.1 ++ [p.name]),
        acc.2 ++ [(p.name, p.description, "")])

/-- Join with `", "` (`strings.Join(missing, ", ")`). -/
def joinComma : List String → String
  | [] => ""
  | [x] => x
  | x :: xs => x ++ ", " ++ joinComma xs

/-- `renderUserInput`: `none` spec models a nil pointer; `none` context a
nil `GenerationContext` (whose user-input map reads as empty). -/
def renderUserInput (spec : Option (List UserParam)) (g : Option GenCtx) :
    Except String String :=
  match spec with
  | none => .error "user input specification cannot be nil"
  | some params =>
    if params = [] then .ok ""
    else
      let vals :=
        match g with
        | none => []
        | some g => g.userInput
      let r := params.foldl (userInputStep vals) ([], [])
      if r.1 ≠ [] then
        .error ("missing required user input parameters: " ++ joinComma r.1)
      else .ok (renderDoc r.2)

/-! ## Context generator (`core/generators/context.go`) -/

/-- A `GitReference` (consumed opaquely by the GitHub fetch collaborator). -/
structure GitRef where
  path : String
  version : String
deriving DecidableEq

/-- A `GitRepoContextSource` (consumed opaquely by the clone collaborator). -/
structure GitRepo where
  fullName : String
  provider : String
  authEnvVar : String
deriving DecidableEq

/-- A `CombinedContextSource.Item` oneof (no nested Combined, no GitRepo —
excluded by the type, as in the proto). -/
inductive CombinedItem where
  | text (s : String) : CombinedItem
  | cmd (c : String) : CombinedItem
  | github (ref : GitRef) : CombinedItem
  | prefetchId (id : String) : CombinedItem
  | userInput (params : List UserParam) : CombinedItem
  | localFile (p : String) : CombinedItem
  | unset : CombinedItem

/-- A `ContextFrom` oneof.  `unset` models a present message with no case
populated. -/
inductive ContextFrom where
  | text (s : String) : ContextFrom
  | cmd (c : String) : ContextFrom
  | github (ref : GitRef) : ContextFrom
  | combined (items : List (Option CombinedItem)) : ContextFrom
  | prefetchId (id : String) : ContextFrom
  | userInput (params : List UserParam) : ContextFrom
  | localFile (p : String) : ContextFrom
  | gitRepo (repo : GitRepo) : ContextFrom
  | unset : ContextFrom

/-- A `ContextEntry`: output path, `from` source (none = `!HasFrom()`),
IDE filter list. -/
structure ContextEntry where
  path : String
  fromSrc : Option ContextFrom
  filterIde : List String

/-- The external collaborators consumed by the resolver, abstracted as
result-valued functions (`utils.ExecuteCommand`, `utils.FetchGithub`,
`os.ReadFile`, `utils.CloneGitRepo`). -/
structure ResolveEnv where
  execCommand : String → Except String String
  fetchGithub : GitRef → Except String String
  readFile : String → Except String String
  cloneRepo : GitRepo → String → Except String Unit

/-- `Context.fetchCombinedItem`: dispatch one combined sub-item; a nil
item is an error. -/
def fetchCombinedItem (env : ResolveEnv) (g : GenCtx) :
    Option CombinedItem → Except String String
  | none => .error "combined item cannot be nil"
  | some (.text s) => .ok s
  | some (.cmd c) => env.execCommand c
  | some (.github r) => env.fetchGithub r
  | some (.prefetchId id) =>
    match lookupAssoc g.prefetched id with
    | some d => .ok d
    | none => .error ("prefetch id [" ++ id ++ "] not found")
  | some (.userInput ps) => renderUserInput (some ps) (some g)
  | some (.localFile p) =>
    let pt := trimStr p
    if pt = "" then .error "local file path cannot be empty"
    else
      match env.readFile pt with
      | .ok b => .ok b
      | .error e => .error ("failed to read local file " ++ pt ++ ": " ++ e)
  | some .unset => .error "unknown or unset combined item type"

/-- The loop of `Context.fetchCombined`: sub-items in order, contents
appended with no separator, the first failure aborting with the 0-based
sub-item index. -/
def fetchCombinedAux (env : ResolveEnv) (g : GenCtx) :
    List (Option CombinedItem) → Nat → String → Except String String
  | [], _, acc => .ok acc
  | it :: rest, i, acc =>
    match fetchCombinedItem env g it with
    | .error e => .error ("failed to fetch combined item " ++ natToStr i ++ ": " ++ e)
    | .ok c => fetchCombinedAux env g rest (i + 1) (acc ++ c)

/-- `Context.fetchCombined` (`none` models a nil combined message). -/
def fetchCombined (env : ResolveEnv) (g : GenCtx) :
    Option (List (Option CombinedItem)) → Except String String
  | none => .error "combined source cannot be nil"
  | some items => if items.isEmpty then .ok "" else fetchCombinedAux env g items 0 ""

/-- `Context.fetchContent`: dispatch one `from` source.  `GitRepo` has no
case in this switch (it is intercepted in `materializeEntry`), so it falls
through to the default. -/
def fetchContent (env : ResolveEnv) (g : GenCtx) :
    Option ContextFrom → Except String String
  | none => .error "from source cannot be nil"
  | some (.text s) => .ok s
  | some (.cmd c) => env.execCommand c
  | some (.github r) => env.fetchGithub r
  | some (.combined items) => fetchCombined env g (some items)
  | some (.prefetchId id) =>
    match lookupAssoc g.prefetched id with
    | some d => .ok d
    | none => .error ("prefetch id [" ++ id ++ "] not found")
  | some (.userInput ps) => renderUserInput (some ps) (some g)
  | some (.localFile p) =>
    let pt := trimStr p
    if pt = "" then .error "local file path cannot be empty"
    else
      match env.readFile pt with
      | .ok b => .ok b
      | .error e => .error ("failed to read local file " ++ pt ++ ": " ++ e)
  | some (.gitRepo _) => .error "unknown or unset context source type"
  | some .unset => .error "unknown or unset context source type"

/-- `Context.materializeEntry`: path and `from` validation, git-repo
interception (clone side effect, `Directory` record), otherwise content
resolution into a `File` record. -/
def materializeEntry (env : ResolveEnv) (g : GenCtx) (e : ContextEntry) :
    Except String Entry :=
  if e.path = "" then .error "entry path cannot be empty"
  else
    match e.fromSrc with
    | none => .error "entry must have a 'from' source"
    | some (.gitRepo repo) =>
      let destPath := if g.workspacePath ≠ "" then joinPath g.workspacePath e.path else e.path
      match env.cloneRepo repo destPath with
      | .error err => .error ("failed to clone git repository: " ++ err)
      | .ok _ => .ok (.directory e.path)
    | some f =>
      match fetchContent env g (some f) with
      | .error err => .error ("failed to fetch content: " ++ err)
      | .ok content => .ok (.file e.path content)

/-- The IDE-filter skip test of `Context.Materialize`: skip when the
entry declares a non-empty filter list, the active tool identifier is
non-empty, and the list does not contain it. -/
def skipEntry (g : GenCtx) (e : ContextEntry) : Bool :=
  e.filterIde ≠ [] && g.ide ≠ "" && !(e.filterIde.contains g.ide)

/-- The entry loop of `Context.Materialize`: document order, fail-fast,
errors wrapped with the entry's path. -/
def materializeEntries (env : ResolveEnv) (g : GenCtx) :
    List ContextEntry → Except String (List Entry)
  | [] => .ok []
  | e :: rest =>
    if skipEntry g e then materializeEntries env g rest
    else
      match materializeEntry env g e with
      | .error err =>
        .error ("failed to materialize entry for path " ++ e.path ++ ": " ++ err)
      | .ok me =>
        match materializeEntries env g rest with
        | .error e2 => .error e2
        | .ok ms => .ok (me :: ms)

/-- `Context.Materialize` (`none` models a nil context message; nil and
empty entry lists both yield the empty result). -/
def ctxMaterialize (env : ResolveEnv) (g : GenCtx) :
    Option (List ContextEntry) → Except String (List Entry)
  | none => .error "context cannot be nil"
  | some entries => materializeEntries env g entries

/-! ## Prefetch processor (the `prefetch` package) -/

/-- A `PrefetchEntry` oneof (only the command variant is defined). -/
inductive PrefetchEntry where
  | cmd (c : String) : PrefetchEntry
  | unset : PrefetchEntry

/-- The prefetch collaborators: command execution and the `protojson`
decoding of a `PrefetchResult` document into its `(id, data)` pairs. -/
structure PrefetchEnv where
  exec : String → Except String String
  parsePrefetchResult : String → Except String (List (String × String))

/-- `Processor.processEntry`. -/
def prefetchProcessEntry (env : PrefetchEnv) : PrefetchEntry → Except String String
  | .cmd c =>
    match env.exec c with
    | .error e => .error ("command execution failed: " ++ e)
    | .ok d => .ok d
  | .unset => .error "unknown or unset prefetch entry type"

/-- The entry loop of `Processor.Process`: strict list order, every parsed
`(id, data)` pair written into the cache map (later writes win), the first
failure aborting with its index. -/
def prefetchEntriesGo (env : PrefetchEnv) :
    List (Option PrefetchEntry) → Nat → List (String × String) →
    Except String (List (String × String))
  | [], _, acc => .ok acc
  | none :: _, i, _ => .error ("prefetch entry at index " ++ natToStr i ++ " is nil")
  | some e :: rest, i, acc =>
    match prefetchProcessEntry env e with
    | .error err => .error ("failed to process entry at index " ++ natToStr i ++ ": " ++ err)
    | .ok data =>
      match env.parsePrefetchResult data with
      | .error e2 => .error ("failed to unmarshal prefetch result: " ++ e2)
      | .ok ds => prefetchEntriesGo env rest (i + 1)
          (ds.foldl (fun m d => insertAssoc m d.1 d.2) acc)

/-- `Processor.Process`.  An empty entry list short-circuits to success
(Go returns a nil map there; nil and empty maps read alike). -/
def prefetchProcess (env : PrefetchEnv) (entries : List (Option PrefetchEntry)) :
    Except String (List (String × String)) :=
  if entries.isEmpty then .ok []
  else prefetchEntriesGo env entries 0 []

/-- The outcome of one prefetch entry in isolation: execution followed by
parsing (used to state the all-entries-succeed hypothesis of C5). -/
def entryOutcome (env : PrefetchEnv) :
    Option PrefetchEntry → Except String (List (String × String))
  | none => .error "prefetch entry is nil"
  | some e =>
    match prefetchProcessEntry env e with
    | .error err => .error err
    | .ok d => env.parsePrefetchResult d

/-- The cache built from a pair list by sequential map writes. -/
def buildCache (l : List (String × String)) : List (String × String) :=
  l.foldl (fun m d => insertAssoc m d.1 d.2) []

/-- The value at the LAST occurrence of a key in a pair list. -/
def lastAssoc (l : List (String × String)) (k : String) : Option String :=
  lookupAssoc l.reverse k

/-- Concatenation of a list of strings with no separator. -/
def concatAll : List String → String
  | [] => ""
  | s :: rest => s ++ concatAll rest

/-! ## Declarative views used to state the claims -/

/-- The names of required parameters absent from the value map, in
declaration order (the claim's "missing parameter names"). -/
def requiredMissing (params : List UserParam) (vals : List (String × String)) :
    List String :=
  (params.filter (fun p =>
    p.name ≠ "" ∧ ¬ p.optional ∧ lookupAssoc vals p.name = none)).map (·.name)

/-- The rendered view models: one section per named parameter in
declaration order, an absent value rendering as the empty string. -/
def paramViews (params : List UserParam) (vals : List (String × String)) :
    List (String × String × String) :=
  (params.filter (fun p => p.name ≠ "")).map
    (fun p => (p.name, p.description, (lookupAssoc vals p.name).getD ""))

/-! ## Concrete fixtures used by witnesses and counterexamples -/

/-- A concrete resolver environment: one command succeeds, everything else
fails. -/
def envW : ResolveEnv where
  execCommand := fun c => if c = "ec" then .ok "CMD" else .error "boom"
  fetchGithub := fun _ => .error "net down"
  readFile := fun _ => .error "no such file"
  cloneRepo := fun _ _ => .error "clone failed"

/-- A concrete generation context. -/
def gW : GenCtx := ⟨[("pid", "PRE")], [("p1", "v1")], "claude", ""⟩

/-- A concrete prefetch environment: `c1` produces output `o1` which
parses to two pairs with the same id; `bad` fails. -/
def penvW : PrefetchEnv where
  exec := fun c =>
    if c = "c1" then .ok "o1" else if c = "bad" then .error "E" else .ok "other"
  parsePrefetchResult := fun d =>
    if d = "o1" then .ok [("k", "v1"), ("k", "v2")] else .ok []

/-- A concrete existing MCP document: one server `a` whose `type` field is
the empty string, plus an unknown top-level key. -/
def exJ : Json :=
  .obj [("mcpServers", .obj [("a", .obj [("type", .str "")])]),
    ("other", .str "keep")]

/-- A concrete MCP declaration adding server `b`. -/
def exMcp : Mcp := ⟨[("b", .http "http://u")]⟩

/-! ## Helper lemmas -/

theorem processEntry_of_escape (root : String) (e : Entry)
    (h : entryEscapes root e = true) :
    (processEntry root e).1 = [] ∧ ∃ m, (processEntry root e).2 = some m := by
  cases e with
  | blank => simp [entryEscapes] at h
  | directory d =>
    simp only [entryEscapes, Bool.and_eq_true, decide_eq_true_eq,
      Bool.not_eq_true'] at h
    simp only [processEntry]
    rw [if_neg h.1, if_neg (by simp [h.2])]
    exact ⟨rfl, _, rfl⟩
  | file p c =>
    simp only [entryEscapes, Bool.and_eq_true, decide_eq_true_eq,
      Bool.not_eq_true'] at h
    simp only [processEntry]
    rw [if_neg h.1, if_neg (by simp [h.2])]
    exact ⟨rfl, _, rfl⟩

theorem processEntry_safe (root : String) (e : Entry) :
    ∀ op ∈ (processEntry root e).1, opSafe root op := by
  cases e with
  | blank => simp [processEntry]
  | directory d =>
    simp only [processEntry]
    split
    · simp
    · split
      · rename_i hin
        intro op hop
        simp only [List.mem_singleton] at hop
        subst hop
        exact Or.inl hin
      · simp
  | file p c =>
    simp only [processEntry]
    split
    · simp
    · split
      · rename_i hin
        intro op hop
        simp only [List.mem_cons, List.mem_singleton, List.not_mem_nil,
          or_false] at hop
        rcases hop with h1 | h2
        · subst h1
          exact Or.inr ⟨_, hin, rfl⟩
        · subst h2
          exact hin
      · simp

theorem persistEntries_safe (root : String) (l : List Entry) :
    ∀ i, ∀ op ∈ (persistEntries root i l).1, opSafe root op := by
  induction l with
  | nil => simp [persistEntries]
  | cons e rest ih =>
    intro i op hop
    simp only [persistEntries] at hop
    rcases hpe : (processEntry root e).2 with _ | m
    · rw [hpe] at hop
      simp only [List.mem_append] at hop
      rcases hop with h1 | h2
      · exact processEntry_safe root e op h1
      · exact ih (i + 1) op h2
    · rw [hpe] at hop
      exact processEntry_safe root e op hop

theorem persistEntries_err_of_escape (root : String) (e : Entry)
    (hesc : entryEscapes root e = true) (post : List Entry) :
    ∀ (pre : List Entry) (i : Nat),
      (persistEntries root i (pre ++ e :: post)).2.isSome = true ∧
      ((∀ x ∈ pre, entryErr root x = none) →
        ∃ m, (processEntry root e).2 = some m ∧
          (persistEntries root i (pre ++ e :: post)).2
            = some ("entry " ++ natToStr (i + pre.length) ++ ": " ++ m)) := by
  intro pre
  induction pre with
  | nil =>
    intro i
    obtain ⟨-, m, hm⟩ := processEntry_of_escape root e hesc
    constructor
    · simp only [List.nil_append, persistEntries, hm, Option.isSome_some]
    · intro _
      exact ⟨m, hm, by simp only [List.nil_append, persistEntries, hm,
        List.length_nil, Nat.add_zero]⟩
  | cons x rest ih =>
    intro i
    rcases hx : (processEntry root x).2 with _ | mx
    · constructor
      · simpa only [List.cons_append, persistEntries, hx] using (ih (i + 1)).1
      · intro hall
        obtain ⟨m, hm, he⟩ := (ih (i + 1)).2 (fun y hy => hall y (List.mem_cons_of_mem x hy))
        refine ⟨m, hm, ?_⟩
        have harith : i + 1 + rest.length = i + (rest.length + 1) := by omega
        rw [harith] at he
        simpa only [List.cons_append, persistEntries, hx, List.length_cons] using he
    · constructor
      · simp only [List.cons_append, persistEntries, hx, Option.isSome_some]
      · intro hall
        exact absurd (hall x (List.mem_cons_self x rest)) (by simp [entryErr, hx])

theorem fetchCombinedAux_ok (env : ResolveEnv) (g : GenCtx) :
    ∀ (items : List (Option CombinedItem)) (cs : List String) (i : Nat) (acc : String),
      items.mapM (fetchCombinedItem env g) = .ok cs →
      fetchCombinedAux env g items i acc = .ok (acc ++ concatAll cs) := by
  intro items
  induction items with
  | nil =>
    intro cs i acc h
    simp only [List.mapM_nil, pure, Except.pure] at h
    cases h
    simp [fetchCombinedAux, concatAll, String.append_empty]
  | cons it rest ih =>
    intro cs i acc h
    simp only [List.mapM_cons, pure, Except.pure, bind, Except.bind] at h
    rcases hit : fetchCombinedItem env g it with e | c
    · rw [hit] at h; cases h
    · rw [hit] at h
      rcases hrest : rest.mapM (fetchCombinedItem env g) with e2 | cs'
      · rw [hrest] at h; cases h
      · rw [hrest] at h
        cases h
        simp only [fetchCombinedAux, hit]
        rw [ih cs' (i + 1) (acc ++ c) hrest]
        simp only [concatAll, String.append_assoc]

theorem fetchCombinedAux_err (env : ResolveEnv) (g : GenCtx)
    (it : Option CombinedItem) (e : String)
    (hit : fetchCombinedItem env g it = .error e) :
    ∀ (pre : List (Option CombinedItem)) (cs : List String)
      (rest : List (Option CombinedItem)) (i : Nat) (acc : String),
      pre.mapM (fetchCombinedItem env g) = .ok cs →
      fetchCombinedAux env g (pre ++ it :: rest) i acc
        = .error ("failed to fetch combined item " ++ natToStr (i + pre.length)
            ++ ": " ++ e) := by
  intro pre
  induction pre with
  | nil =>
    intro cs rest i acc _
    simp [fetchCombinedAux, hit]
  | cons x pre' ih =>
    intro cs rest i acc h
    simp only [List.mapM_cons, pure, Except.pure, bind, Except.bind] at h
    rcases hx : fetchCombinedItem env g x with e2 | c
    · rw [hx] at h; cases h
    · rw [hx] at h
      rcases hrest : pre'.mapM (fetchCombinedItem env g) with e3 | cs'
      · rw [hrest] at h; cases h
      · rw [List.cons_append]
        simp only [fetchCombinedAux, hx]
        rw [ih cs' rest (i + 1) (acc ++ c) hrest]
        have harith : i + 1 + pre'.length = i + (pre'.length + 1) := by omega
        rw [harith]
        rfl

theorem materializeEntries_skip_filter (env : ResolveEnv) (g : GenCtx) :
    ∀ entries : List ContextEntry,
      materializeEntries env g entries
        = materializeEntries env g (entries.filter (fun e => !skipEntry g e)) := by
  intro entries
  induction entries with
  | nil => rfl
  | cons e rest ih =>
    cases hs : skipEntry g e with
    | true => simp [materializeEntries, hs, List.filter_cons, ih]
    | false => simp [materializeEntries, hs, List.filter_cons, ih]

theorem materializeEntries_err (env : ResolveEnv) (g : GenCtx)
    (e : ContextEntry) (err : String)
    (hskip : skipEntry g e = false)
    (herr : materializeEntry env g e = .error err) :
    ∀ (pre : List ContextEntry) (ms : List Entry) (rest : List ContextEntry),
      materializeEntries env g pre = .ok ms →
      materializeEntries env g (pre ++ e :: rest)
        = .error ("failed to materialize entry for path " ++ e.path ++ ": " ++ err) := by
  intro pre
  induction pre with
  | nil =>
    intro ms rest _
    simp [materializeEntries, hskip, herr]
  | cons x pre' ih =>
    intro ms rest h
    rw [List.cons_append]
    by_cases hx : skipEntry g x
    · simp only [materializeEntries, if_pos hx] at h ⊢
      exact ih ms rest h
    · simp only [materializeEntries, if_neg hx] at h ⊢
      rcases hme : materializeEntry env g x with e2 | mx
      · rw [hme] at h
        exact Except.noConfusion h
      · rw [hme] at h
        rcases hrest : materializeEntries env g pre' with e3 | ms'
        · rw [hrest] at h
          exact Except.noConfusion h
        · rw [ih ms' rest hrest]

theorem lookupAssoc_insertAssoc {α : Type} (l : List (String × α)) (k k' : String)
    (v : α) :
    lookupAssoc (insertAssoc l k v) k' = if k = k' then some v else lookupAssoc l k' := by
  induction l with
  | nil => simp [insertAssoc, lookupAssoc]
  | cons p rest ih =>
    simp only [insertAssoc]
    by_cases hpk : p.1 = k
    · simp only [if_pos hpk, lookupAssoc]
      by_cases hkk : k = k'
      · simp [hkk]
      · simp only [if_neg hkk]
        rw [if_neg (by rw [hpk]; exact hkk)]
    · simp only [if_neg hpk, lookupAssoc, ih]
      by_cases hpk' : p.1 = k'
      · rw [if_pos hpk', if_neg (by rw [← hpk']; intro hc; exact hpk hc.symm),
          if_pos hpk']
      · simp [hpk']

theorem lookupAssoc_append {α : Type} (a b : List (String × α)) (k : String) :
    lookupAssoc (a ++ b) k
      = match lookupAssoc a k with
        | some v => some v
        | none => lookupAssoc b k := by
  induction a with
  | nil => simp [lookupAssoc]
  | cons p rest ih =>
    simp only [List.cons_append, lookupAssoc]
    by_cases hp : p.1 = k
    · simp [hp]
    · simp [hp, ih]

theorem lookupAssoc_eq_none_of_not_mem {α : Type} (l : List (String × α))
    (k : String) (h : k ∉ l.map Prod.fst) : lookupAssoc l k = none := by
  induction l with
  | nil => rfl
  | cons p rest ih =>
    simp only [List.map_cons, List.mem_cons] at h
    push_neg at h
    have hne : ¬ (p.1 = k) := fun hc => h.1 hc.symm
    simp only [lookupAssoc, if_neg hne]
    exact ih h.2

theorem lookup_foldl_insert (l m : List (String × String)) (k : String) :
    lookupAssoc (l.foldl (fun m d => insertAssoc m d.1 d.2) m) k
      = match lookupAssoc l.reverse k with
        | some v => some v
        | none => lookupAssoc m k := by
  induction l generalizing m with
  | nil => simp [lookupAssoc]
  | cons d rest ih =>
    simp only [List.foldl_cons, List.reverse_cons]
    rw [ih, lookupAssoc_append, lookupAssoc_insertAssoc]
    rcases lookupAssoc rest.reverse k with _ | v
    · simp only [lookupAssoc]
      by_cases hd : d.1 = k
      · simp [hd]
      · simp [hd]
    · rfl

theorem prefetchEntriesGo_ok (env : PrefetchEnv) :
    ∀ (entries : List (Option PrefetchEntry)) (dss : List (List (String × String)))
      (i : Nat) (acc : List (String × String)),
      entries.mapM (entryOutcome env) = .ok dss →
      prefetchEntriesGo env entries i acc
        = .ok (dss.flatten.foldl (fun m d => insertAssoc m d.1 d.2) acc) := by
  intro entries
  induction entries with
  | nil =>
    intro dss i acc h
    simp only [List.mapM_nil, pure, Except.pure] at h
    cases h
    simp [prefetchEntriesGo]
  | cons oe rest ih =>
    intro dss i acc h
    simp only [List.mapM_cons, pure, Except.pure, bind, Except.bind] at h
    rcases hoe : entryOutcome env oe with e | ds
    · rw [hoe] at h; cases h
    · rw [hoe] at h
      rcases hrest : rest.mapM (entryOutcome env) with e2 | dss'
      · rw [hrest] at h; cases h
      · rw [hrest] at h
        cases h
        cases oe with
        | none => simp [entryOutcome] at hoe
        | some pe =>
          simp only [entryOutcome] at hoe
          rcases hpe : prefetchProcessEntry env pe with e3 | data
          · rw [hpe] at hoe; cases hoe
          · rw [hpe] at hoe
            have hoe2 : env.parsePrefetchResult data = Except.ok ds := hoe
            simp only [prefetchEntriesGo, hpe, hoe2]
            rw [ih dss' (i + 1) (ds.foldl (fun m d => insertAssoc m d.1 d.2) acc) hrest]
            simp [List.foldl_append]

theorem prefetchEntriesGo_err (env : PrefetchEnv) (c e : String)
    (hexec : env.exec c = .error e) :
    ∀ (pre : List (Option PrefetchEntry)) (dss : List (List (String × String)))
      (rest : List (Option PrefetchEntry)) (i : Nat) (acc : List (String × String)),
      pre.mapM (entryOutcome env) = .ok dss →
      prefetchEntriesGo env (pre ++ some (PrefetchEntry.cmd c) :: rest) i acc
        = .error ("failed to process entry at index " ++ natToStr (i + pre.length)
            ++ ": " ++ ("command execution failed: " ++ e)) := by
  intro pre
  induction pre with
  | nil =>
    intro dss rest i acc _
    simp [prefetchEntriesGo, prefetchProcessEntry, hexec]
  | cons oe pre' ih =>
    intro dss rest i acc h
    simp only [List.mapM_cons, pure, Except.pure, bind, Except.bind] at h
    rcases hoe : entryOutcome env oe with e2 | ds
    · rw [hoe] at h; cases h
    · rw [hoe] at h
      rcases hrest : pre'.mapM (entryOutcome env) with e3 | dss'
      · rw [hrest] at h; cases h
      · cases oe with
        | none => simp [entryOutcome] at hoe
        | some pe =>
          simp only [entryOutcome] at hoe
          rcases hpe : prefetchProcessEntry env pe with e4 | data
          · rw [hpe] at hoe; cases hoe
          · rw [hpe] at hoe
            have hoe2 : env.parsePrefetchResult data = Except.ok ds := hoe
            rw [List.cons_append]
            simp only [prefetchEntriesGo, hpe, hoe2]
            rw [ih dss' rest (i + 1)
              (ds.foldl (fun m d => insertAssoc m d.1 d.2) acc) hrest]
            have harith : i + 1 + pre'.length = i + (pre'.length + 1) := by omega
            rw [harith]
            rfl

theorem userInput_foldl_spec (vals : List (String × String)) :
    ∀ (params : List UserParam) (accM : List String)
      (accV : List (String × String × String)),
      params.foldl (userInputStep vals) (accM, accV)
        = (accM ++ requiredMissing params vals, accV ++ paramViews params vals) := by
  intro params
  induction params with
  | nil => simp [requiredMissing, paramViews]
  | cons p rest ih =>
    intro accM accV
    simp only [List.foldl_cons]
    by_cases hn : p.name = ""
    · simp only [userInputStep, if_pos hn, ih, requiredMissing, paramViews,
        List.filter_cons]
      simp [hn]
    · rcases hv : lookupAssoc vals p.name with _ | v
      · by_cases hop : p.optional
        · simp only [userInputStep, if_neg hn, hv, if_pos hop, ih,
            requiredMissing, paramViews, List.filter_cons]
          simp [hn, hop, hv, List.append_assoc]
        · simp only [userInputStep, if_neg hn, hv, if_neg hop, ih,
            requiredMissing, paramViews, List.filter_cons]
          simp [hn, hop, hv, List.append_assoc]
      · simp only [userInputStep, if_neg hn, hv, ih, requiredMissing,
          paramViews, List.filter_cons]
        simp [hn, hv, List.append_assoc]

theorem mem_mergeUniqueStrings (existing new : List String) (x : String) :
    x ∈ existing ++ new → x ∈ mergeUniqueStrings existing new := by
  have key : ∀ (l acc : List String), x ∈ acc ∨ x ∈ l →
      x ∈ l.foldl (fun acc s => if s ∈ acc then acc else acc ++ [s]) acc := by
    intro l
    induction l with
    | nil => intro acc h; simpa using h.resolve_right (by simp)
    | cons s rest ih =>
      intro acc h
      simp only [List.foldl_cons]
      by_cases hs : s ∈ acc
      · rw [if_pos hs]
        refine ih acc ?_
        rcases h with h | h
        · exact Or.inl h
        · rcases List.mem_cons.mp h with rfl | h2
          · exact Or.inl hs
          · exact Or.inr h2
      · rw [if_neg hs]
        refine ih (acc ++ [s]) ?_
        rcases h with h | h
        · exact Or.inl (List.mem_append_left _ h)
        · rcases List.mem_cons.mp h with rfl | h2
          · exact Or.inl (List.mem_append_right _ (by simp))
          · exact Or.inr h2
  intro h
  exact key (existing ++ new) [] (Or.inr h)

theorem applyServer_none (cm : McpJsonDoc) (n : String) (s : McpServer)
    (h : mcpServerToConfig s = none) : applyServer cm n s = cm := by
  simp [applyServer, h]

theorem applyServer_some (cm : McpJsonDoc) (n : String) (s : McpServer)
    (srv : McpSrvCfg) (h : mcpServerToConfig s = some srv) :
    applyServer cm n s
      = { cm with servers := some (insertAssoc (cm.servers.getD []) n srv) } := by
  simp [applyServer, h]

theorem mcpFold_extra (cm : McpJsonDoc) :
    ∀ l : List (String × McpServer),
      (l.foldl (fun acc p => applyServer acc p.1 p.2) cm).extra = cm.extra := by
  intro l
  induction l generalizing cm with
  | nil => rfl
  | cons p rest ih =>
    rw [List.foldl_cons, ih]
    rcases hc : mcpServerToConfig p.2 with _ | srv
    · rw [applyServer_none cm p.1 p.2 hc]
    · rw [applyServer_some cm p.1 p.2 srv hc]

theorem mcpFold_lookup_notkept (name : String) :
    ∀ (l : List (String × McpServer)) (cm : McpJsonDoc),
      lookupAssoc (l.filterMap
        (fun p => (mcpServerToConfig p.2).map (fun c => (p.1, c)))) name = none →
      lookupAssoc ((l.foldl (fun acc p => applyServer acc p.1 p.2) cm).servers.getD [])
          name
        = lookupAssoc (cm.servers.getD []) name := by
  intro l
  induction l with
  | nil => intro cm _; rfl
  | cons p rest ih =>
    intro cm h
    simp only [List.filterMap_cons] at h
    rcases hc : mcpServerToConfig p.2 with _ | srv
    · rw [hc] at h
      rw [List.foldl_cons, applyServer_none cm p.1 p.2 hc]
      exact ih cm h
    · rw [hc] at h
      simp only [Option.map_some, lookupAssoc] at h
      by_cases hp : p.1 = name
      · rw [if_pos hp] at h; cases h
      · rw [if_neg hp] at h
        rw [List.foldl_cons, applyServer_some cm p.1 p.2 srv hc, ih _ h]
        simp only [Option.getD_some, lookupAssoc_insertAssoc, if_neg hp]

theorem mcpFold_lookup_kept (name : String) (srv : McpSrvCfg) :
    ∀ (l : List (String × McpServer)) (cm : McpJsonDoc),
      (l.map Prod.fst).Nodup →
      lookupAssoc (l.filterMap
        (fun p => (mcpServerToConfig p.2).map (fun c => (p.1, c)))) name = some srv →
      lookupAssoc ((l.foldl (fun acc p => applyServer acc p.1 p.2) cm).servers.getD [])
          name = some srv := by
  intro l
  induction l with
  | nil => intro cm _ h; cases h
  | cons p rest ih =>
    intro cm hnd h
    simp only [List.map_cons, List.nodup_cons] at hnd
    simp only [List.filterMap_cons] at h
    rcases hc : mcpServerToConfig p.2 with _ | srvh
    · rw [hc] at h
      rw [List.foldl_cons, applyServer_none cm p.1 p.2 hc]
      exact ih cm hnd.2 h
    · rw [hc] at h
      simp only [Option.map_some, lookupAssoc] at h
      by_cases hp : p.1 = name
      · rw [if_pos hp] at h
        injection h with h2
        subst h2
        rw [List.foldl_cons, applyServer_some cm p.1 p.2 srvh hc]
        have hnone : lookupAssoc (rest.filterMap
            (fun q => (mcpServerToConfig q.2).map (fun c => (q.1, c)))) name = none := by
          refine lookupAssoc_eq_none_of_not_mem _ _ (fun hmem => hnd.1 ?_)
          rw [hp]
          rcases List.mem_map.mp hmem with ⟨q, hq, hqn⟩
          rcases List.mem_filterMap.mp hq with ⟨r, hr, hrq⟩
          rcases hopt : mcpServerToConfig r.2 with _ | rc
          · rw [hopt] at hrq; cases hrq
          · rw [hopt] at hrq
            have hq2 : (r.1, rc) = q := by simpa using hrq
            subst hq2
            rw [← hqn]
            exact List.mem_map.mpr ⟨r, hr, rfl⟩
        rw [mcpFold_lookup_notkept name rest _ hnone]
        simp only [Option.getD_some, lookupAssoc_insertAssoc, if_pos hp]
      · rw [if_neg hp] at h
        rw [List.foldl_cons, applyServer_some cm p.1 p.2 srvh hc]
        exact ih _ hnd.2 h

/-! ## Claim theorems -/

/-- C1: for every root and every `MaterializedResult` entry (File or
Directory) whose declared path, joined to root and normalized for `..`
traversal, resolves outside root, `PersistMaterializedResult` returns an
error, every file write and directory creation it performed is within root
(parent creations at `Dir` of a within-root target), and — when the entries
before the offending one are error-free — the returned error is precisely
the escape error naming that entry's index and path, so the escaping entry
itself contributed no filesystem operation. -/
theorem C1_persist_rejects_traversal (root : String) (pre post : List Entry)
    (e : Entry) (hroot : trimStr root ≠ "")
    (hesc : entryEscapes (clean root) e = true) :
    (PersistMaterializedResult root (some (pre ++ e :: post))).err.isSome = true
    ∧ (∀ op ∈ (PersistMaterializedResult root (some (pre ++ e :: post))).ops,
        opSafe (clean root) op)
    ∧ ((∀ x ∈ pre, entryErr (clean root) x = none) →
        ∃ m, (processEntry (clean root) e).2 = some m ∧
          (PersistMaterializedResult root (some (pre ++ e :: post))).err
            = some ("entry " ++ natToStr pre.length ++ ": " ++ m)) := by
  have h := persistEntries_err_of_escape (clean root) e hesc post pre 0
  have hsafe := persistEntries_safe (clean root) (pre ++ e :: post) 0
  simp only [PersistMaterializedResult, if_neg hroot]
  refine ⟨h.1, hsafe, fun hall => ?_⟩
  obtain ⟨m, hm, he⟩ := h.2 hall
  exact ⟨m, hm, by simpa using he⟩

/-- C1 witness: a concrete run with one good entry followed by a
traversal entry `../evil`. -/
theorem C1_witness :
    (trimStr "/r" ≠ "" ∧ entryEscapes (clean "/r") (Entry.file "../evil" "y") = true)
    ∧ (PersistMaterializedResult "/r"
        (some ([Entry.file "ok.txt" "x"] ++ Entry.file "../evil" "y" :: []))).err.isSome = true
    ∧ (∃ m, (processEntry (clean "/r") (Entry.file "../evil" "y")).2 = some m ∧
        (PersistMaterializedResult "/r"
          (some ([Entry.file "ok.txt" "x"] ++ Entry.file "../evil" "y" :: []))).err
          = some ("entry " ++ natToStr 1 ++ ": " ++ m)) := by
  have h := C1_persist_rejects_traversal "/r" [Entry.file "ok.txt" "x"] []
    (Entry.file "../evil" "y") (by decide) (by decide)
  exact ⟨⟨by decide, by decide⟩, h.1, h.2.2 (by decide)⟩

/-- C8: `PersistMaterializedResult` on a nil result returns the error
`materialized result cannot be nil` (under a usable root), succeeds
without touching the filesystem on a non-nil result with an empty entry
list, and errors on an empty or whitespace-only root whatever the result
argument. -/
theorem C8_persist_input_validation (root : String) (result : Option (List Entry)) :
    (trimStr root ≠ "" →
      PersistMaterializedResult root none
        = ⟨[], some "materialized result cannot be nil"⟩)
    ∧ (trimStr root ≠ "" → PersistMaterializedResult root (some []) = ⟨[], none⟩)
    ∧ (trimStr root = "" →
      PersistMaterializedResult root result
        = ⟨[], some "root path cannot be empty"⟩) := by
  refine ⟨fun h => ?_, fun h => ?_, fun h => ?_⟩ <;>
    simp [PersistMaterializedResult, persistEntries, h]

/-- C8 witness: the three clauses at concrete arguments. -/
theorem C8_witness :
    (trimStr "/r" ≠ ""
      ∧ PersistMaterializedResult "/r" none
          = ⟨[], some "materialized result cannot be nil"⟩
      ∧ PersistMaterializedResult "/r" (some []) = ⟨[], none⟩)
    ∧ (trimStr " " = ""
      ∧ PersistMaterializedResult " " (some [Entry.file "a" "b"])
          = ⟨[], some "root path cannot be empty"⟩) := by
  refine ⟨⟨by decide, ?_, ?_⟩, ⟨by decide, ?_⟩⟩
  · exact (C8_persist_input_validation "/r" none).1 (by decide)
  · exact (C8_persist_input_validation "/r" (some [])).2.1 (by decide)
  · exact (C8_persist_input_validation " " (some [Entry.file "a" "b"])).2.2 (by decide)

/-- C9 counterexample: with root `/` and the absolute entry path `/x`, the
write lands exactly at the absolute location `/x` (stripping the separator
and re-joining to `/` reproduces the very same path), so "an absolute
entry path never causes a write at that absolute location" is false as
stated. -/
theorem C9_counterexample :
    PersistMaterializedResult "/" (some [Entry.file "/x" "boom"])
      = ⟨[FsOp.mkdirAll "/", FsOp.writeFile "/x" "boom"], none⟩
    ∧ clean (trimStr "/x") = "/x" ∧ isAbsPath "/x" = true := by
  exact ⟨by decide, by decide, by decide⟩

/-- C9 (amended): an absolute entry path is not rejected for being
absolute: the leading separator is stripped, the remainder is joined under
root and, when the containment check passes, the entry is written (or its
directory created) at that within-root location; that location differs
from the originally declared absolute location whenever the latter is not
itself within root. -/
theorem C9_abs_path_reinterpreted (root p c : String)
    (hroot : trimStr root ≠ "") (hp : trimStr p ≠ "")
    (_habs : isAbsPath (clean (trimStr p)) = true)
    (hin : isPathWithinRoot (clean root)
      (clean (joinPath (clean root) (stripLeadSep (clean (trimStr p))))) = true) :
    PersistMaterializedResult root (some [Entry.file p c])
      = ⟨[FsOp.mkdirAll (dirPath (clean (joinPath (clean root)
            (stripLeadSep (clean (trimStr p)))))),
          FsOp.writeFile (clean (joinPath (clean root)
            (stripLeadSep (clean (trimStr p))))) c], none⟩
    ∧ PersistMaterializedResult root (some [Entry.directory p])
      = ⟨[FsOp.mkdirAll (clean (joinPath (clean root)
            (stripLeadSep (clean (trimStr p)))))], none⟩
    ∧ (isPathWithinRoot (clean root) (clean (trimStr p)) = false →
        clean (joinPath (clean root) (stripLeadSep (clean (trimStr p))))
          ≠ clean (trimStr p)) := by
  refine ⟨?_, ?_, fun hout heq => by rw [heq] at hin; rw [hin] at hout; cases hout⟩
  · simp only [PersistMaterializedResult, if_neg hroot, persistEntries, processEntry,
      if_neg hp, if_pos hin, List.append_nil]
  · simp only [PersistMaterializedResult, if_neg hroot, persistEntries, processEntry,
      if_neg hp, if_pos hin, List.append_nil]

/-- C9 witness: the amended behaviour at root `/r` and absolute path
`/a/b.txt`, which is rewritten under the root. -/
theorem C9_witness :
    (trimStr "/r" ≠ "" ∧ trimStr "/a/b.txt" ≠ ""
      ∧ isAbsPath (clean (trimStr "/a/b.txt")) = true
      ∧ isPathWithinRoot (clean "/r") (clean (joinPath (clean "/r")
          (stripLeadSep (clean (trimStr "/a/b.txt"))))) = true)
    ∧ PersistMaterializedResult "/r" (some [Entry.file "/a/b.txt" "c"])
        = ⟨[FsOp.mkdirAll (dirPath (clean (joinPath (clean "/r")
              (stripLeadSep (clean (trimStr "/a/b.txt")))))),
            FsOp.writeFile (clean (joinPath (clean "/r")
              (stripLeadSep (clean (trimStr "/a/b.txt"))))) "c"], none⟩
    ∧ (isPathWithinRoot (clean "/r") (clean (trimStr "/a/b.txt")) = false
      ∧ clean (joinPath (clean "/r") (stripLeadSep (clean (trimStr "/a/b.txt"))))
          ≠ clean (trimStr "/a/b.txt")) := by
  have h := C9_abs_path_reinterpreted "/r" "/a/b.txt" "c"
    (by decide) (by decide) (by decide) (by decide)
  exact ⟨⟨by decide, by decide, by decide, by decide⟩, h.1, by decide,
    h.2.2 (by decide)⟩

/-- C4: when every sub-item of a Combined source resolves, the resolved
content is the concatenation of the sub-items' contents in declared order
with no separator; when a sub-item fails, the whole resolution fails with
an error carrying that sub-item's 0-based index, and the result does not
depend on the sub-items after the failing one (they are not resolved). -/
theorem C4_combined_concat (env : ResolveEnv) (g : GenCtx) :
    (∀ (items : List (Option CombinedItem)) (cs : List String),
      items.mapM (fetchCombinedItem env g) = .ok cs →
      fetchCombined env g (some items) = .ok (concatAll cs))
    ∧ (∀ (pre : List (Option CombinedItem)) (it : Option CombinedItem)
        (e : String) (rest : List (Option CombinedItem)) (cs : List String),
      pre.mapM (fetchCombinedItem env g) = .ok cs →
      fetchCombinedItem env g it = .error e →
      fetchCombined env g (some (pre ++ it :: rest))
        = .error ("failed to fetch combined item " ++ natToStr pre.length
            ++ ": " ++ e)) := by
  constructor
  · intro items cs h
    cases items with
    | nil =>
      simp only [List.mapM_nil, pure, Except.pure] at h
      cases h
      rfl
    | cons it rest =>
      have h2 := fetchCombinedAux_ok env g (it :: rest) cs 0 "" h
      rw [String.empty_append] at h2
      exact h2
  · intro pre it e rest cs hpre hit
    have h2 := fetchCombinedAux_err env g it e hit pre cs rest 0 "" hpre
    rw [Nat.zero_add] at h2
    cases hne : pre ++ it :: rest with
    | nil => exact absurd hne (by simp)
    | cons y ys =>
      rw [hne] at h2
      exact h2

/-- C4 witness: a three-item combined source concatenating text, command
output and a prefetched value; then a failing command at index 1 whose
error hides the items after it. -/
theorem C4_witness :
    ([some (CombinedItem.text "A"), some (CombinedItem.cmd "ec"),
        some (CombinedItem.prefetchId "pid")].mapM (fetchCombinedItem envW gW)
      = .ok ["A", "CMD", "PRE"])
    ∧ fetchCombined envW gW (some [some (CombinedItem.text "A"),
        some (CombinedItem.cmd "ec"), some (CombinedItem.prefetchId "pid")])
      = .ok "ACMDPRE"
    ∧ ([some (CombinedItem.text "A")].mapM (fetchCombinedItem envW gW)
      = .ok ["A"])
    ∧ fetchCombinedItem envW gW (some (CombinedItem.cmd "zz")) = .error "boom"
    ∧ fetchCombined envW gW (some ([some (CombinedItem.text "A")]
        ++ some (CombinedItem.cmd "zz") :: [some (CombinedItem.text "IGNORED")]))
      = .error "failed to fetch combined item 1: boom" := by
  refine ⟨rfl, ?_, rfl, rfl, ?_⟩
  · exact (C4_combined_concat envW gW).1 [some (CombinedItem.text "A"),
      some (CombinedItem.cmd "ec"), some (CombinedItem.prefetchId "pid")]
      ["A", "CMD", "PRE"] rfl
  · exact (C4_combined_concat envW gW).2 [some (CombinedItem.text "A")]
      (some (CombinedItem.cmd "zz")) "boom" [some (CombinedItem.text "IGNORED")]
      ["A"] rfl rfl

/-- C6 counterexample: with an empty active tool identifier, an entry
declaring the filter list `["x"]` — which does not contain the active
tool — is NOT skipped: it is materialized.  The claim's skip rule, as
stated for every active tool identifier, fails here. -/
theorem C6_counterexample :
    ctxMaterialize envW ⟨[], [], "", ""⟩
      (some [⟨"a.txt", some (ContextFrom.text "hi"), ["x"]⟩])
      = .ok [Entry.file "a.txt" "hi"]
    ∧ (Except.ok [Entry.file "a.txt" "hi"] : Except String (List Entry))
        ≠ .ok [] := by
  exact ⟨rfl, by simp⟩

/-- C6 (amended): with a NON-EMPTY active tool identifier the Context
Materializer visits entries in document order and skips exactly those
declaring a non-empty filter list that excludes the active tool (with an
empty identifier nothing is skipped); on the first non-skipped entry whose
materialization fails it returns an error naming that entry's path, with
no partial result, and the outcome is independent of the entries after the
failing one. -/
theorem C6_materialize_filter_failfast (env : ResolveEnv) (g : GenCtx)
    (hide : g.ide ≠ "") :
    (∀ e : ContextEntry,
      skipEntry g e
        = (decide (e.filterIde ≠ []) && !(e.filterIde.contains g.ide)))
    ∧ (∀ (g2 : GenCtx) (e : ContextEntry), g2.ide = "" → skipEntry g2 e = false)
    ∧ (∀ entries : List ContextEntry,
      ctxMaterialize env g (some entries)
        = ctxMaterialize env g (some (entries.filter (fun e => !skipEntry g e))))
    ∧ (∀ (pre : List ContextEntry) (e : ContextEntry) (err : String)
        (rest : List ContextEntry) (ms : List Entry),
      materializeEntries env g pre = .ok ms → skipEntry g e = false →
      materializeEntry env g e = .error err →
      ctxMaterialize env g (some (pre ++ e :: rest))
        = .error ("failed to materialize entry for path " ++ e.path ++ ": " ++ err)) := by
  refine ⟨?_, ?_, ?_, ?_⟩
  · intro e
    simp [skipEntry, hide]
  · intro g2 e h
    simp [skipEntry, h]
  · intro entries
    exact materializeEntries_skip_filter env g entries
  · intro pre e err rest ms h1 h2 h3
    exact materializeEntries_err env g e err h2 h3 pre ms rest h1

/-- C6 witness: with active tool `claude`, a filtered-out entry is
skipped, a filtered-in entry is kept, and a failing command entry
after a good one aborts with its path; the trailing entry is ignored. -/
theorem C6_witness :
    (gW.ide ≠ ""
      ∧ skipEntry gW ⟨"s.txt", some (ContextFrom.text "x"), ["junie"]⟩ = true
      ∧ skipEntry gW ⟨"k.txt", some (ContextFrom.text "x"), ["claude", "junie"]⟩
          = false
      ∧ materializeEntries envW gW [⟨"ok.txt", some (ContextFrom.text "x"), []⟩]
          = .ok [Entry.file "ok.txt" "x"]
      ∧ skipEntry gW ⟨"bad.txt", some (ContextFrom.cmd "zz"), []⟩ = false
      ∧ materializeEntry envW gW ⟨"bad.txt", some (ContextFrom.cmd "zz"), []⟩
          = .error "failed to fetch content: boom")
    ∧ ctxMaterialize envW gW (some ([⟨"ok.txt", some (ContextFrom.text "x"), []⟩]
        ++ ⟨"bad.txt", some (ContextFrom.cmd "zz"), []⟩
          :: [⟨"after.txt", some (ContextFrom.text "y"), []⟩]))
      = .error "failed to materialize entry for path bad.txt: failed to fetch content: boom" := by
  refine ⟨⟨by decide, rfl, rfl, rfl, rfl, rfl⟩, ?_⟩
  exact (C6_materialize_filter_failfast envW gW (by decide)).2.2.2
    [⟨"ok.txt", some (ContextFrom.text "x"), []⟩]
    ⟨"bad.txt", some (ContextFrom.cmd "zz"), []⟩
    "failed to fetch content: boom"
    [⟨"after.txt", some (ContextFrom.text "y"), []⟩]
    [Entry.file "ok.txt" "x"] rfl rfl rfl

/-- C5: when every prefetch entry executes and parses, `Process` returns
the cache built by writing every parsed pair in execution order, and each
id maps to the value of its LAST occurrence across the concatenated
outputs; when an entry's command fails (all entries before it clean),
`Process` returns that command's error wrapped with the entry index, and
no cache (the error branch carries no map); the outcome is independent of
the entries after the failing one. -/
theorem C5_prefetch_process (env : PrefetchEnv) :
    (∀ (entries : List (Option PrefetchEntry)) (dss : List (List (String × String))),
      entries.mapM (entryOutcome env) = .ok dss →
      prefetchProcess env entries = .ok (buildCache dss.flatten)
      ∧ ∀ id, lookupAssoc (buildCache dss.flatten) id = lastAssoc dss.flatten id)
    ∧ (∀ (pre : List (Option PrefetchEntry)) (c e : String)
        (rest : List (Option PrefetchEntry)) (dss : List (List (String × String))),
      pre.mapM (entryOutcome env) = .ok dss → env.exec c = .error e →
      prefetchProcess env (pre ++ some (PrefetchEntry.cmd c) :: rest)
        = .error ("failed to process entry at index " ++ natToStr pre.length
            ++ ": " ++ ("command execution failed: " ++ e))) := by
  constructor
  · intro entries dss h
    constructor
    · cases entries with
      | nil =>
        simp only [List.mapM_nil, pure, Except.pure] at h
        cases h
        rfl
      | cons oe rest =>
        exact prefetchEntriesGo_ok env (oe :: rest) dss 0 [] h
    · intro id
      have h3 := lookup_foldl_insert dss.flatten [] id
      unfold buildCache lastAssoc
      rw [h3]
      rcases lookupAssoc dss.flatten.reverse id with _ | v <;> rfl
  · intro pre c e rest dss hpre hexec
    have h2 := prefetchEntriesGo_err env c e hexec pre dss rest 0 [] hpre
    rw [Nat.zero_add] at h2
    cases hne : pre ++ some (PrefetchEntry.cmd c) :: rest with
    | nil => exact absurd hne (by simp)
    | cons y ys =>
      rw [hne] at h2
      exact h2

/-- C5 witness: one entry whose output repeats the id `k` (the last value
wins), then a failing command at index 1 whose error hides the entry after
it. -/
theorem C5_witness :
    ([some (PrefetchEntry.cmd "c1")].mapM (entryOutcome penvW)
      = .ok [[("k", "v1"), ("k", "v2")]])
    ∧ penvW.exec "bad" = .error "E"
    ∧ prefetchProcess penvW [some (PrefetchEntry.cmd "c1")] = .ok [("k", "v2")]
    ∧ lookupAssoc (buildCache [[("k", "v1"), ("k", "v2")]].flatten) "k" = some "v2"
    ∧ lastAssoc [[("k", "v1"), ("k", "v2")]].flatten "k" = some "v2"
    ∧ prefetchProcess penvW ([some (PrefetchEntry.cmd "c1")]
        ++ some (PrefetchEntry.cmd "bad") :: [some (PrefetchEntry.cmd "c1")])
      = .error "failed to process entry at index 1: command execution failed: E" := by
  have hok := (C5_prefetch_process penvW).1 [some (PrefetchEntry.cmd "c1")]
    [[("k", "v1"), ("k", "v2")]] rfl
  have herr := (C5_prefetch_process penvW).2 [some (PrefetchEntry.cmd "c1")]
    "bad" "E" [some (PrefetchEntry.cmd "c1")] [[("k", "v1"), ("k", "v2")]] rfl rfl
  exact ⟨rfl, rfl, hok.1, by decide, by decide, herr⟩

/-- C7: when the set of required parameters absent from the user-input
value map is non-empty, rendering fails with one aggregated error listing
all the missing names joined by `", "` (the error branch carries no
document); when no required parameter is missing, rendering succeeds with
the fixed template document, in which every named parameter absent from
the map — in particular every absent optional one — renders with the
empty value. -/
theorem C7_user_input (params : List UserParam) (g : GenCtx)
    (hne : params ≠ []) :
    (requiredMissing params g.userInput ≠ [] →
      renderUserInput (some params) (some g)
        = .error ("missing required user input parameters: "
            ++ joinComma (requiredMissing params g.userInput)))
    ∧ (requiredMissing params g.userInput = [] →
      renderUserInput (some params) (some g)
        = .ok (renderDoc (paramViews params g.userInput)))
    ∧ (∀ p ∈ params, p.name ≠ "" →
        lookupAssoc g.userInput p.name = none →
        (p.name, p.description, "") ∈ paramViews params g.userInput) := by
  have hfold := userInput_foldl_spec g.userInput params [] []
  simp only [List.nil_append] at hfold
  refine ⟨fun hm => ?_, fun hm => ?_, ?_⟩
  · simp only [renderUserInput, if_neg hne, hfold]
    rw [if_pos hm]
  · simp only [renderUserInput, if_neg hne, hfold]
    rw [if_neg (fun hh => hh hm)]
  · intro p hp hname hlook
    refine List.mem_map.mpr ⟨p, List.mem_filter.mpr ⟨hp, by simp [hname]⟩, ?_⟩
    rw [hlook]
    rfl

/-- C7 witness: a required parameter `a` and an optional parameter `b`:
with `a` absent rendering aggregates the missing name; with `a` supplied
and `b` absent rendering succeeds and `b`'s value is empty. -/
theorem C7_witness :
    (([⟨"a", "da", false⟩, ⟨"b", "db", true⟩] : List UserParam) ≠ []
      ∧ requiredMissing [⟨"a", "da", false⟩, ⟨"b", "db", true⟩] [("p1", "v1")]
          = ["a"]
      ∧ requiredMissing [⟨"a", "da", false⟩, ⟨"b", "db", true⟩] [("a", "va")]
          = [])
    ∧ renderUserInput (some [⟨"a", "da", false⟩, ⟨"b", "db", true⟩])
        (some ⟨[], [("p1", "v1")], "claude", ""⟩)
      = .error "missing required user input parameters: a"
    ∧ renderUserInput (some [⟨"a", "da", false⟩, ⟨"b", "db", true⟩])
        (some ⟨[], [("a", "va")], "claude", ""⟩)
      = .ok (renderDoc [("a", "da", "va"), ("b", "db", "")])
    ∧ ("b", "db", "")
        ∈ paramViews [⟨"a", "da", false⟩, ⟨"b", "db", true⟩] [("a", "va")] := by
  have h1 := (C7_user_input [⟨"a", "da", false⟩, ⟨"b", "db", true⟩]
    ⟨[], [("p1", "v1")], "claude", ""⟩ (by decide)).1 (by decide)
  have h2 := (C7_user_input [⟨"a", "da", false⟩, ⟨"b", "db", true⟩]
    ⟨[], [("a", "va")], "claude", ""⟩ (by decide)).2.1 (by decide)
  have h3 := (C7_user_input [⟨"a", "da", false⟩, ⟨"b", "db", true⟩]
    ⟨[], [("a", "va")], "claude", ""⟩ (by decide)).2.2
    ⟨"b", "db", true⟩ (by decide) (by decide) rfl
  exact ⟨⟨by decide, by decide, by decide⟩, h1, h2, h3⟩

/-- C2 counterexample: an existing MCP file whose server `a` declares
`{"type": ""}` is rewritten — when merging in an unrelated new server
`b` — with `a` mapped to `{}`: the round-trip through `mcpServerConfig`
drops the empty recognized field, so the untouched entry does NOT appear
unchanged, refuting the claim as stated. -/
theorem C2_counterexample :
    buildMcpJSON (some exMcp) (ExistingFile.parsed exJ)
      = .ok (Json.obj [("mcpServers", Json.obj [("a", Json.obj []),
          ("b", Json.obj [("type", Json.str "http"), ("url", Json.str "http://u")])]),
          ("other", Json.str "keep")])
    ∧ Json.obj [] ≠ Json.obj [("type", Json.str "")] := by
  exact ⟨rfl, by simp⟩

/-- C2 (amended): for every merge into a parseable existing MCP document,
the rewritten document consists of the `mcpServers` key followed by every
unrecognized top-level key of the existing document with its value
unchanged; every existing server entry not re-declared keeps its name,
mapped to the serialization of its decoded config — its unknown fields
and non-empty recognized fields intact, recognized fields that were empty
or null dropped; and every declared (kept) server is updated or inserted
by name with its new config. -/
theorem C2_mcp_merge (mcp : Mcp) (j : Json) (d : McpJsonDoc) (out : Json)
    (hnodup : (mcp.servers.map Prod.fst).Nodup)
    (hparse : unmarshalMcpJson j = some d)
    (hbuild : buildMcpJSON (some mcp) (ExistingFile.parsed j) = .ok out) :
    ∃ fs : Option (List (String × McpSrvCfg)),
      out = Json.obj (("mcpServers", marshalServers fs) :: d.extra)
      ∧ (∀ name cfg, lookupAssoc (keptServers mcp) name = none →
          lookupAssoc (d.servers.getD []) name = some cfg →
          lookupAssoc (fs.getD []) name = some cfg)
      ∧ (∀ name srv, lookupAssoc (keptServers mcp) name = some srv →
          lookupAssoc (fs.getD []) name = some srv) := by
  simp only [buildMcpJSON, hparse] at hbuild
  injection hbuild with hb
  refine ⟨(mcp.servers.foldl (fun acc p => applyServer acc p.1 p.2) d).servers,
    ?_, ?_, ?_⟩
  · rw [← hb]
    simp only [marshalMcpJson, mcpFold_extra d mcp.servers]
  · intro name cfg hkept hd
    rw [mcpFold_lookup_notkept name mcp.servers d hkept]
    exact hd
  · intro name srv hk
    exact mcpFold_lookup_kept name srv mcp.servers d hnodup hk

/-- C2 witness: the amended merge at the concrete fixture — unknown key
`other` preserved, untouched server `a` kept (normalized), declared server
`b` inserted. -/
theorem C2_witness :
    ((exMcp.servers.map Prod.fst).Nodup
      ∧ unmarshalMcpJson exJ = some ⟨some [("a", ⟨"", "", none, none, "", []⟩)],
          [("other", Json.str "keep")]⟩
      ∧ buildMcpJSON (some exMcp) (ExistingFile.parsed exJ)
          = .ok (Json.obj [("mcpServers", Json.obj [("a", Json.obj []),
              ("b", Json.obj [("type", Json.str "http"),
                ("url", Json.str "http://u")])]),
              ("other", Json.str "keep")]))
    ∧ (∃ fs : Option (List (String × McpSrvCfg)),
        Json.obj [("mcpServers", Json.obj [("a", Json.obj []),
            ("b", Json.obj [("type", Json.str "http"),
              ("url", Json.str "http://u")])]),
            ("other", Json.str "keep")]
          = Json.obj (("mcpServers", marshalServers fs)
              :: [("other", Json.str "keep")])
        ∧ (∀ name cfg, lookupAssoc (keptServers exMcp) name = none →
            lookupAssoc ((some [("a", (⟨"", "", none, none, "", []⟩ : McpSrvCfg))]).getD [])
              name = some cfg →
            lookupAssoc (fs.getD []) name = some cfg)
        ∧ (∀ name srv, lookupAssoc (keptServers exMcp) name = some srv →
            lookupAssoc (fs.getD []) name = some srv)) := by
  refine ⟨⟨?_, rfl, rfl⟩, ?_⟩
  · simp [exMcp]
  · exact C2_mcp_merge exMcp exJ
      ⟨some [("a", ⟨"", "", none, none, "", []⟩)], [("other", Json.str "keep")]⟩
      (Json.obj [("mcpServers", Json.obj [("a", Json.obj []),
        ("b", Json.obj [("type", Json.str "http"), ("url", Json.str "http://u")])]),
        ("other", Json.str "keep")])
      (by simp [exMcp]) rfl rfl

/-- C3 counterexample: the reference tool (Claude) settings strategy,
handed unparsable existing settings content, does not fail: it silently
discards the content and produces exactly the settings it would build with
no existing file at all (the Go code's only error exit is an impossible
marshal failure; the parse-failure branch resets `s = claudeSettings{}`). -/
theorem C3_counterexample :
    buildClaudeSettingsJSON none [] [] ExistingFile.unparsable
      = ⟨[], [], [], "acceptEdits", [], true⟩
    ∧ buildClaudeSettingsJSON none [] [] ExistingFile.unparsable
        = buildClaudeSettingsJSON none [] [] ExistingFile.absent := by
  exact ⟨rfl, rfl⟩

/-- C3 (amended): the two merge paths disagree on unparsable existing
content: the shared MCP merge fails the materialization with a parse
error, while the reference tool settings strategy silently starts fresh,
behaving exactly as if no settings file existed. -/
theorem C3_unparsable_policy :
    (∀ mcp : Mcp, buildMcpJSON (some mcp) ExistingFile.unparsable
      = .error "failed to parse existing mcp json")
    ∧ (∀ (perms : Option Permissions) (m c : List String),
      buildClaudeSettingsJSON perms m c ExistingFile.unparsable
        = buildClaudeSettingsJSON perms m c ExistingFile.absent) := by
  exact ⟨fun _ => rfl, fun _ _ _ => rfl⟩

/-- C10: a permissions declaration with the Network variant set passes the
`HasType` guard, falls through `formatPermission`'s default case to the
empty string, and that empty string is inserted into the settings file's
allow (resp. deny) list — the strategy neither rejects it nor emits a
Network-specific pattern, and the build is total (no error path). -/
theorem C10_network_permission (b : Bool) (perms : Permissions)
    (m c : List String) (existing : ExistingFile) :
    formatPermission (OperationPermission.network b) = ""
    ∧ permHasType (OperationPermission.network b) = true
    ∧ (OperationPermission.network b ∈ perms.allow →
        "" ∈ (buildClaudeSettingsJSON (some perms) m c existing).allow)
    ∧ (OperationPermission.network b ∈ perms.deny →
        "" ∈ (buildClaudeSettingsJSON (some perms) m c existing).deny) := by
  refine ⟨rfl, rfl, fun hallow => ?_, fun hdeny => ?_⟩
  · apply mem_mergeUniqueStrings
    apply List.mem_append_right
    apply List.mem_append_left
    apply List.mem_append_left
    exact List.mem_map.mpr ⟨OperationPermission.network b,
      List.mem_filter.mpr ⟨hallow, rfl⟩, rfl⟩
  · apply mem_mergeUniqueStrings
    apply List.mem_append_right
    exact List.mem_map.mpr ⟨OperationPermission.network b,
      List.mem_filter.mpr ⟨hdeny, rfl⟩, rfl⟩

/-- C10 witness: a Network allow-permission and a declaration whose ONLY
Network permission sits in the deny list, each at concrete arguments, with
the empty string landing in the corresponding list. -/
theorem C10_witness :
    (OperationPermission.network true
        ∈ (⟨[OperationPermission.network true],
            []⟩ : Permissions).allow)
    ∧ (OperationPermission.network false
        ∈ (⟨[OperationPermission.bash "ls"],
            [OperationPermission.network false]⟩ : Permissions).deny)
    ∧ formatPermission (OperationPermission.network true) = ""
    ∧ "" ∈ (buildClaudeSettingsJSON (some ⟨[OperationPermission.network true],
        []⟩) ["srv"] ["refine"] ExistingFile.absent).allow
    ∧ "" ∈ (buildClaudeSettingsJSON (some ⟨[OperationPermission.bash "ls"],
        [OperationPermission.network false]⟩) ["srv"] ["refine"]
        ExistingFile.absent).deny := by
  have h1 := C10_network_permission true
    ⟨[OperationPermission.network true], []⟩
    ["srv"] ["refine"] ExistingFile.absent
  have h2 := C10_network_permission false
    ⟨[OperationPermission.bash "ls"], [OperationPermission.network false]⟩
    ["srv"] ["refine"] ExistingFile.absent
  exact ⟨by decide, by decide, h1.1, h1.2.2.1 (by decide), h2.2.2.2 (by decide)⟩

end Osdd
